import Mathlib

/-! Verification of the sbf-rs spatial Bloom filter library.

The Rust sources (src/data_structure.rs, src/metrics.rs, src/error.rs,
src/types.rs) are shallowly embedded: the generic unsigned cell type U is
modelled as Nat, f64 computations as real numbers, Vec<T> as List T,
fallible operations as Except, and panics (assertion failures, vector
indexing out of bounds, expect on an empty reduction) as Option.none.
The MD5 / MD4 digest functions come from external crates, so the digest
is modelled as a function field of the filter: the library only XORs the
padded input with a salt, hashes it, and reads the first eight digest
bytes in native (here: little-endian) order.  -/

namespace SbfRs

/-- src/error.rs: the single error kind of the library. -/
inductive Error where
  | IndexOutOfBounds
deriving DecidableEq

/-- src/types.rs: `pub type Salt = Vec<u8>;` (bytes as Nat). -/
abbrev Salt := List Nat

/-- src/metrics.rs: the `Metrics` structure, field for field.  `f64`
fields are modelled as real numbers, `i64` as Int. -/
structure Metrics where
  cells : Nat
  hash_number : Nat
  members : Nat
  collisions : Nat
  safeness : ℝ
  area_number : Nat
  area_members : List Nat
  area_expected_cells : List Int
  area_cells : List Nat
  area_self_collisions : List Nat
  area_prior_fpp : List ℝ
  area_fpp : List ℝ
  area_prior_isep : List ℝ
  area_isep : List ℝ
  area_prior_safep : List ℝ

/-- src/data_structure.rs: the `SBF` structure.  The `hash_function`
field of the source is an enum selecting one of the external MD5/MD4
digests; it is modelled by the selected digest function itself. -/
structure SBF where
  salts : List Salt
  filter : List Nat
  hash_function : List Nat → List Nat
  metrics : Metrics

/-- `vec[i] = f(vec[i])` on a counter vector: Rust panics when the index
is out of bounds, modelled by `none`. -/
def updCounter (l : List Nat) (i : Nat) (f : Nat → Nat) : Option (List Nat) :=
  match l.get? i with
  | some v => some (l.set i (f v))
  | none => none

/-- Reads the first 8 digest bytes as a u64 in native byte order
(little-endian on the reference platforms), data_structure.rs line 100.
MD5 and MD4 digests have 16 bytes, so `drain(0..8)` always succeeds. -/
def digestValue (digest : List Nat) : Nat :=
  (digest.take 8).foldr (fun b acc => b + 256 * acc) 0

/-- data_structure.rs lines 80-108, `SBF::calc_indexes`: for each salt,
the content is chained with `salt.len()` zero bytes, zipped with the
salt (zipping truncates to the salt length) and XORed, hashed, and the
first eight digest bytes are reduced modulo the filter length.  (Rust
panics when the filter is empty; every claim below assumes `M > 0`,
which `new` guarantees via its assertion.) -/
def calc_indexes (sbf : SBF) (content : List Nat) : List Nat :=
  sbf.salts.map (fun salt =>
    let xor_content := List.zipWith (fun h v => h ^^^ v)
      (content ++ List.replicate salt.length 0) salt
    digestValue (sbf.hash_function xor_content) % sbf.filter.length)

/-- data_structure.rs lines 111-115, `SBF::get_cell`. -/
def get_cell (sbf : SBF) (index : Nat) : Except Error Nat :=
  match sbf.filter.get? index with
  | some v => Except.ok v
  | none => Except.error Error.IndexOutOfBounds

/-- The cell write rule of `SBF::set_cell` (data_structure.rs lines
120-125): the cell is overwritten with the area exactly when it is zero
or strictly below the area. -/
def writeCell (old area : Nat) : Nat :=
  if old = 0 ∨ old < area then area else old

/-- The metrics block of `SBF::set_cell` (data_structure.rs lines
127-148).  Mirroring the source, `v` is the value of the cell AFTER the
write has been applied; the branches test `*v` in the source order. -/
def setCellMetrics (m : Metrics) (v area : Nat) : Option Metrics :=
  if v = 0 then
    (updCounter m.area_cells area (· + 1)).map (fun ac => { m with area_cells := ac })
  else if v < area then
    (if 0 < area then updCounter m.area_cells v (· - 1) else some m.area_cells).bind
      (fun ac => (updCounter ac area (· + 1)).map (fun ac2 =>
        { m with area_cells := ac2, collisions := m.collisions + 1 }))
  else if v = area then
    (updCounter m.area_self_collisions v (· + 1)).map (fun asc =>
      { m with collisions := m.collisions + 1, area_self_collisions := asc })
  else
    some { m with collisions := m.collisions + 1 }

/-- data_structure.rs lines 118-154, `SBF::set_cell`: look the cell up
(an out-of-range index is the `IndexOutOfBounds` error), apply the write
rule, then run the metrics block on the post-write value.  A metrics
vector indexed out of bounds is a Rust panic, modelled as `none`. -/
def set_cell (sbf : SBF) (index area : Nat) : Option (Except Error (Nat × SBF)) :=
  match sbf.filter.get? index with
  | none => some (Except.error Error.IndexOutOfBounds)
  | some old =>
    (setCellMetrics sbf.metrics (writeCell old area) area).map (fun m =>
      Except.ok (writeCell old area,
        { sbf with filter := sbf.filter.set index (writeCell old area), metrics := m }))

/-- data_structure.rs lines 163-219, `SBF::new`.  The salt generation
from `OsRng` is modelled by the oracle `rng` (salt index, byte index →
byte): `hash_number` salts of `max_input_size` bytes each.  The leading
`assert!(cells > U::zero())` is a panic, modelled as `none`.  With Nat
cells the `to_usize` conversions always succeed. -/
def new (rng : Nat → Nat → Nat) (cells : Nat) (hash_number : Nat)
    (max_input_size : Nat) (hash_function : List Nat → List Nat)
    (area_number : Nat) : Option (Except Error SBF) :=
  if cells = 0 then none
  else some (Except.ok
    { salts := (List.range hash_number).map (fun i =>
        (List.range max_input_size).map (fun j => rng i j)),
      filter := List.replicate cells 0,
      hash_function := hash_function,
      metrics :=
        { cells := cells, hash_number := hash_number, members := 0,
          collisions := 0, safeness := 0, area_number := area_number,
          area_members := List.replicate area_number 0,
          area_cells := List.replicate area_number 0,
          area_expected_cells := List.replicate area_number (-1),
          area_self_collisions := List.replicate area_number 0,
          area_fpp := List.replicate area_number (-1),
          area_isep := List.replicate area_number (-1),
          area_prior_fpp := List.replicate area_number (-1),
          area_prior_isep := List.replicate area_number (-1),
          area_prior_safep := List.replicate area_number (-1) } })

/-- data_structure.rs lines 229-230: `(-(n as f64) * p.ln() / (ln 2)^2)
as u64`.  The `as u64` cast truncates toward zero (saturating at 0 for
negative values), which `Int.toNat ∘ Int.floor` reproduces for the
values reachable here. -/
noncomputable def optimal_cells (expected_inserts : Nat) (max_fpp : ℝ) : Nat :=
  (⌊-(expected_inserts : ℝ) * Real.log max_fpp / (Real.log 2) ^ 2⌋).toNat

/-- data_structure.rs lines 231-232: `(optimal_cells as f64 / n as f64 *
ln 2).ceil() as usize`, using the already-truncated cell count. -/
noncomputable def optimal_hash_number (expected_inserts : Nat) (max_fpp : ℝ) : Nat :=
  (⌈(optimal_cells expected_inserts max_fpp : ℝ) / (expected_inserts : ℝ) *
    Real.log 2⌉).toNat

/-- data_structure.rs lines 222-241, `SBF::new_optimal`: computes the
two sizes and delegates to `new` (the `U::from_u64` conversion always
succeeds with Nat cells). -/
noncomputable def new_optimal (rng : Nat → Nat → Nat) (expected_inserts : Nat)
    (max_fpp : ℝ) (max_input_size : Nat) (hash_function : List Nat → List Nat)
    (area_number : Nat) : Option (Except Error SBF) :=
  new rng (optimal_cells expected_inserts max_fpp)
    (optimal_hash_number expected_inserts max_fpp)
    max_input_size hash_function area_number

/-- Modelled from the spec: the sizing formula of §4.5 uses the CEILING
`M = ⌈ -n * ln p / (ln 2)^2 ⌉`, to be compared with `optimal_cells`
(the source truncates instead). -/
noncomputable def optimal_cells_spec (expected_inserts : Nat) (max_fpp : ℝ) : Nat :=
  (⌈-(expected_inserts : ℝ) * Real.log max_fpp / (Real.log 2) ^ 2⌉).toNat

/-- The combining closure `|a, b| Ok(a.min(b))` of `SBF::check`, lifted
to the `Result` values that `try_reduce_with` short-circuits on. -/
def minComb (a b : Except Error Nat) : Except Error Nat :=
  match a, b with
  | Except.ok x, Except.ok y => Except.ok (min x y)
  | Except.error e, _ => Except.error e
  | Except.ok _, Except.error e => Except.error e

/-- The `try_reduce_with(|a, b| Ok(a.min(b)))` of `SBF::check`
(data_structure.rs lines 248-254).  The trailing `.expect(..)` panics on
an empty reduction, modelled as `none`.  The parallel reduction order is
immaterial because `min` is associative and commutative; a left fold is
used. -/
def reduceMin : List (Except Error Nat) → Option (Except Error Nat)
  | [] => none
  | r :: rs => some (rs.foldl minComb r)

/-- data_structure.rs lines 248-254, `SBF::check`. -/
def check (sbf : SBF) (content : List Nat) : Option (Except Error Nat) :=
  reduceMin ((calc_indexes sbf content).map (fun i => get_cell sbf i))

/-- The sequential `try_for_each` over the index vector inside
`SBF::insert` (data_structure.rs lines 258-260): stop at the first
error, propagate a panic. -/
def insertCells (sbf : SBF) (idxs : List Nat) (area : Nat) : Option (Except Error SBF) :=
  match idxs with
  | [] => some (Except.ok sbf)
  | i :: rest =>
    match set_cell sbf i area with
    | none => none
    | some (Except.error e) => some (Except.error e)
    | some (Except.ok (_, s)) => insertCells s rest area

/-- data_structure.rs lines 257-269, `SBF::insert`: write every probed
cell, then `members += 1` and `area_members[area] += 1` (the latter
indexing is a panic when `area` is not below `area_members.len()`). -/
def insert (sbf : SBF) (content : List Nat) (area : Nat) : Option (Except Error SBF) :=
  match insertCells sbf (calc_indexes sbf content) area with
  | none => none
  | some (Except.error e) => some (Except.error e)
  | some (Except.ok s) =>
    (updCounter s.metrics.area_members area (· + 1)).map (fun am =>
      Except.ok { s with metrics :=
        { s.metrics with members := s.metrics.members + 1, area_members := am } })

/-- Driver for a sequence of insert operations (spec §8: properties
quantified over any valid sequence of inserts). -/
def insertSeq (sbf : SBF) : List (List Nat × Nat) → Option (Except Error SBF)
  | [] => some (Except.ok sbf)
  | op :: ops =>
    match insert sbf op.1 op.2 with
    | some (Except.ok s) => insertSeq s ops
    | r => r

/-- A cell position that the write rule can no longer change for a
given area: writing `area` there again leaves the value as it is. -/
def absorbed (area : Nat) (s : SBF) (j : Nat) : Prop :=
  writeCell (s.filter.getD j 0) area = s.filter.getD j 0

/-- metrics.rs lines 127-142, `Metrics::set_prior_area_fpp`, verbatim:
for `i` descending over `(1..area_number).rev()`, it sums the member
counts of areas `i..area_number`, computes the raw prior probability,
stores it into `area_fpp[i]` (sic: the source writes the raw value into
the posterior vector), subtracts the higher-index prior entries from
`area_prior_fpp[i]`, and clamps `area_prior_fpp[i]` at 0.  In-range
indexing is written with `getD`; all indices are below `area_number`,
so no panic can occur when the vectors have length `area_number`. -/
noncomputable def set_prior_area_fpp (m : Metrics) : Metrics :=
  ((List.range' 1 (m.area_number - 1)).reverse).foldl (fun m i =>
    let c : Nat := ((List.range' i (m.area_number - i)).map
      (fun j => m.area_members.getD j 0)).sum
    let p : ℝ := 1 - 1 / (m.cells : ℝ)
    let p : ℝ := 1 - p ^ (m.hash_number * c)
    let p : ℝ := p ^ m.hash_number
    let m := { m with area_fpp := m.area_fpp.set i p }
    let m := (List.range' i (m.area_number - 1 - i)).foldl (fun m j =>
      let v := m.area_prior_fpp.getD i 0 - m.area_prior_fpp.getD (j + 1) 0
      { m with area_prior_fpp := m.area_prior_fpp.set i v }) m
    let v := max (m.area_prior_fpp.getD i 0) 0
    { m with area_prior_fpp := m.area_prior_fpp.set i v }) m

/-! Concrete instances used by witnesses and counterexamples. -/

/-- A degenerate digest: every buffer hashes to eight zero bytes. -/
def hf0 : List Nat → List Nat := fun _ => [0, 0, 0, 0, 0, 0, 0, 0]

/-- A degenerate random-byte oracle: every salt byte is zero. -/
def rng0 : Nat → Nat → Nat := fun _ _ => 0

/-- A fresh one-cell, one-probe metrics record with two areas. -/
def mtr0 : Metrics :=
  { cells := 1, hash_number := 1, members := 0, collisions := 0, safeness := 0,
    area_number := 2, area_members := [0, 0], area_expected_cells := [-1, -1],
    area_cells := [0, 0], area_self_collisions := [0, 0],
    area_prior_fpp := [-1, -1], area_fpp := [-1, -1],
    area_prior_isep := [-1, -1], area_isep := [-1, -1],
    area_prior_safep := [-1, -1] }

/-- A fresh one-cell, one-probe, two-area filter. -/
def sbf0 : SBF :=
  { salts := [[0]], filter := [0], hash_function := hf0, metrics := mtr0 }

/-- Extracts the success state of an operation (with a fallback). -/
def getOk (r : Option (Except Error SBF)) (dflt : SBF) : SBF :=
  match r with
  | some (Except.ok s) => s
  | _ => dflt

/-- The state of `sbf0` after `insert(sbf0, [], 1)`. -/
def s1c : SBF := getOk (insert sbf0 [] 1) sbf0

/-- The state of `s1c` after a second identical insert. -/
def s2c : SBF := getOk (insert s1c [] 1) sbf0

/-- A fresh one-cell, one-probe metrics record with a single area. -/
def mtrA1 : Metrics :=
  { cells := 1, hash_number := 1, members := 0, collisions := 0, safeness := 0,
    area_number := 1, area_members := [0], area_expected_cells := [-1],
    area_cells := [0], area_self_collisions := [0],
    area_prior_fpp := [-1], area_fpp := [-1],
    area_prior_isep := [-1], area_isep := [-1], area_prior_safep := [-1] }

/-- A fresh one-cell, one-probe, one-area filter (what
`new(1, 1, 1, hf0, 1)` builds). -/
def sbfA1 : SBF :=
  { salts := [[0]], filter := [0], hash_function := hf0, metrics := mtrA1 }

/-- A five-byte-salt filter for the truncation scenario S6. -/
def sbf5 : SBF :=
  { salts := [[1, 2, 3, 4, 5]], filter := [0, 0, 0], hash_function := hf0,
    metrics := mtr0 }

/-- The metrics record of the `set_prior_area_fpp` failing input: two
areas, ten cells, two probes, one member in area 1, derived vectors
still at their sentinel value. -/
def m0 : Metrics :=
  { cells := 10, hash_number := 2, members := 1, collisions := 0, safeness := 0,
    area_number := 2, area_members := [0, 1], area_expected_cells := [-1, -1],
    area_cells := [0, 0], area_self_collisions := [0, 0],
    area_prior_fpp := [-1, -1], area_fpp := [-1, -1],
    area_prior_isep := [-1, -1], area_isep := [-1, -1],
    area_prior_safep := [-1, -1] }

/-! Helper lemmas about lists, the write rule and the counter update. -/

theorem getD_set_eq (l : List Nat) (i j a : Nat) :
    (l.set i a).getD j 0 = if i = j ∧ i < l.length then a else l.getD j 0 := by
  simp only [List.getD_eq_getElem?_getD, List.getElem?_set]
  by_cases h : i = j
  · subst h
    by_cases h2 : i < l.length
    · simp [h2]
    · simp [h2, List.getElem?_eq_none (Nat.le_of_not_lt h2)]
  · simp [h]

theorem set_self_of_get? : ∀ {l : List Nat} {n : Nat} {a : Nat},
    l.get? n = some a → l.set n a = l
  | [], n, a, h => by simp at h
  | x :: xs, 0, a, h => by
    simp only [List.get?] at h
    cases h
    rfl
  | x :: xs, n + 1, a, h => by
    simp only [List.get?] at h
    simp only [List.set_cons_succ]
    rw [set_self_of_get? h]

theorem get?_of_lt {l : List Nat} {n : Nat} (h : n < l.length) :
    l.get? n = some (l.getD n 0) := by
  rw [List.get?_eq_getElem?, List.getD_eq_getElem?_getD, List.getElem?_eq_getElem h]
  rfl

theorem mem_of_get? {l : List Nat} {n : Nat} {a : Nat} (h : l.get? n = some a) : a ∈ l := by
  rw [List.get?_eq_getElem?] at h
  obtain ⟨hlt, rfl⟩ := List.getElem?_eq_some_iff.mp h
  exact List.getElem_mem hlt

theorem lt_of_get? {l : List Nat} {n : Nat} {a : Nat} (h : l.get? n = some a) :
    n < l.length := by
  rw [List.get?_eq_getElem?] at h
  exact (List.getElem?_eq_some_iff.mp h).1

theorem getD_of_get? {l : List Nat} {n : Nat} {a : Nat} (h : l.get? n = some a) :
    l.getD n 0 = a := by
  rw [List.getD_eq_getElem?_getD, ← List.get?_eq_getElem?, h]
  rfl

theorem updCounter_some {l : List Nat} {i : Nat} {f : Nat → Nat} {l2 : List Nat}
    (h : updCounter l i f = some l2) :
    l2 = l.set i (f (l.getD i 0)) ∧ l2.length = l.length := by
  unfold updCounter at h
  split at h
  · rename_i v hv
    cases h
    rw [getD_of_get? hv]
    exact ⟨rfl, List.length_set ..⟩
  · cases h

theorem updCounter_of_lt {l : List Nat} {i : Nat} (f : Nat → Nat) (h : i < l.length) :
    updCounter l i f = some (l.set i (f (l.getD i 0))) := by
  unfold updCounter
  rw [get?_of_lt h]

theorem writeCell_le (old area : Nat) : old ≤ writeCell old area := by
  unfold writeCell
  split <;> omega

theorem area_le_writeCell (old area : Nat) : area ≤ writeCell old area := by
  unfold writeCell
  split <;> omega

theorem writeCell_eq_or (old area : Nat) :
    writeCell old area = old ∨ writeCell old area = area := by
  unfold writeCell
  split <;> simp

theorem writeCell_absorb (old area : Nat) :
    writeCell (writeCell old area) area = writeCell old area := by
  unfold writeCell
  by_cases h : old = 0 ∨ old < area
  · rw [if_pos h]
    by_cases h2 : area = 0 ∨ area < area
    · rw [if_pos h2]
    · rw [if_neg h2]
  · rw [if_neg h, if_neg h]

theorem foldl_min_mem : ∀ (xs : List Nat) (a : Nat),
    xs.foldl min a = a ∨ xs.foldl min a ∈ xs
  | [], a => Or.inl rfl
  | x :: xs, a => by
    simp only [List.foldl_cons]
    rcases foldl_min_mem xs (min a x) with h | h
    · rcases Nat.le_total a x with hle | hle
      · left; rw [h, Nat.min_eq_left hle]
      · right; rw [h, Nat.min_eq_right hle]; exact List.mem_cons_self ..
    · right; exact List.mem_cons_of_mem _ h
  termination_by xs => xs.length

theorem foldl_min_le : ∀ (xs : List Nat) (a : Nat),
    xs.foldl min a ≤ a ∧ ∀ x ∈ xs, xs.foldl min a ≤ x
  | [], a => ⟨Nat.le_refl _, by simp⟩
  | x :: xs, a => by
    obtain ⟨h1, h2⟩ := foldl_min_le xs (min a x)
    simp only [List.foldl_cons]
    refine ⟨Nat.le_trans h1 (Nat.min_le_left ..), ?_⟩
    intro y hy
    rcases List.mem_cons.mp hy with rfl | hy
    · exact Nat.le_trans h1 (Nat.min_le_right ..)
    · exact h2 y hy
  termination_by xs => xs.length

theorem foldl_minComb_ok : ∀ (xs : List Nat) (a : Nat),
    (xs.map Except.ok).foldl minComb (Except.ok a) = Except.ok (xs.foldl min a)
  | [], a => rfl
  | x :: xs, a => by
    simp only [List.map_cons, List.foldl_cons]
    exact foldl_minComb_ok xs (min a x)
  termination_by xs => xs.length

theorem zipWith_take_left (f : Nat → Nat → Nat) :
    ∀ (a b : List Nat), List.zipWith f a b = List.zipWith f (a.take b.length) b
  | _, [] => by simp
  | [], _ :: _ => by simp
  | x :: xs, y :: ys => by
    simp only [List.zipWith_cons_cons, List.length_cons, List.take_succ_cons]
    rw [← zipWith_take_left f xs ys]

theorem setCellMetrics_shape {m : Metrics} {v area : Nat} {m2 : Metrics}
    (h : setCellMetrics m v area = some m2) :
    m2.area_members = m.area_members ∧ m2.members = m.members ∧
    m2.area_number = m.area_number ∧ m2.cells = m.cells ∧
    m2.area_cells.length = m.area_cells.length ∧
    m2.area_self_collisions.length = m.area_self_collisions.length := by
  unfold setCellMetrics at h
  split at h
  · simp only [Option.map_eq_some'] at h
    obtain ⟨ac, hac, rfl⟩ := h
    exact ⟨rfl, rfl, rfl, rfl, (updCounter_some hac).2, rfl⟩
  · split at h
    · simp only [Option.bind_eq_some, Option.map_eq_some'] at h
      obtain ⟨ac, hac, ac2, hac2, rfl⟩ := h
      have h1 : ac.length = m.area_cells.length := by
        split at hac
        · exact (updCounter_some hac).2
        · rw [← Option.some.inj hac]
      exact ⟨rfl, rfl, rfl, rfl, (updCounter_some hac2).2.trans h1, rfl⟩
    · split at h
      · simp only [Option.map_eq_some'] at h
        obtain ⟨asc, hasc, rfl⟩ := h
        exact ⟨rfl, rfl, rfl, rfl, rfl, (updCounter_some hasc).2⟩
      · cases h
        exact ⟨rfl, rfl, rfl, rfl, rfl, rfl⟩

theorem setCellMetrics_isSome {m : Metrics} {v area : Nat}
    (h1 : 1 ≤ area) (hv : area ≤ v)
    (hvs : v = area → v < m.area_self_collisions.length) :
    ∃ m2, setCellMetrics m v area = some m2 := by
  unfold setCellMetrics
  rw [if_neg (by omega : ¬ v = 0), if_neg (by omega : ¬ v < area)]
  by_cases he : v = area
  · rw [if_pos he, updCounter_of_lt _ (hvs he)]
    exact ⟨_, rfl⟩
  · rw [if_neg he]
    exact ⟨_, rfl⟩

theorem set_cell_ok {sbf : SBF} {i area : Nat} {v : Nat} {s : SBF}
    (h : set_cell sbf i area = some (Except.ok (v, s))) :
    ∃ old, sbf.filter.get? i = some old ∧ v = writeCell old area ∧
      s.filter = sbf.filter.set i v ∧ s.salts = sbf.salts ∧
      s.hash_function = sbf.hash_function ∧
      setCellMetrics sbf.metrics v area = some s.metrics := by
  unfold set_cell at h
  split at h
  · simp at h
  · rename_i old hold
    simp only [Option.map_eq_some'] at h
    obtain ⟨m, hm, hok⟩ := h
    cases hok
    exact ⟨old, hold, rfl, rfl, rfl, rfl, hm⟩

theorem set_cell_of_lt {sbf : SBF} {i area : Nat} (hi : i < sbf.filter.length)
    (h1 : 1 ≤ area) (ha : area < sbf.metrics.area_self_collisions.length) :
    ∃ s, set_cell sbf i area =
      some (Except.ok (writeCell (sbf.filter.getD i 0) area, s)) := by
  unfold set_cell
  rw [get?_of_lt hi]
  dsimp only
  obtain ⟨m2, hm2⟩ := setCellMetrics_isSome (m := sbf.metrics) h1
    (area_le_writeCell (sbf.filter.getD i 0) area)
    (fun he => by rw [he]; exact ha)
  rw [hm2]
  exact ⟨_, rfl⟩

theorem set_cell_no_error {sbf : SBF} {i area : Nat} (hi : i < sbf.filter.length) :
    ∀ e, set_cell sbf i area ≠ some (Except.error e) := by
  intro e
  unfold set_cell
  rw [get?_of_lt hi]
  dsimp only
  cases hm : setCellMetrics sbf.metrics (writeCell (sbf.filter.getD i 0) area) area <;>
    simp [hm]

theorem insertCells_ok {area : Nat} : ∀ {idxs : List Nat} {sbf s : SBF},
    insertCells sbf idxs area = some (Except.ok s) →
    s.salts = sbf.salts ∧ s.hash_function = sbf.hash_function ∧
    s.filter.length = sbf.filter.length ∧
    (∀ j, sbf.filter.getD j 0 ≤ s.filter.getD j 0) ∧
    (∀ w ∈ s.filter, w ∈ sbf.filter ∨ w = area) ∧
    (∀ j, absorbed area sbf j → absorbed area s j) ∧
    (∀ j ∈ idxs, absorbed area s j) ∧
    s.metrics.area_members = sbf.metrics.area_members ∧
    s.metrics.members = sbf.metrics.members
  | [], sbf, s, h => by
    unfold insertCells at h
    cases h
    exact ⟨rfl, rfl, rfl, fun j => Nat.le_refl _, fun w hw => Or.inl hw,
      fun j hj => hj, by simp, rfl, rfl⟩
  | i :: rest, sbf, s, h => by
    unfold insertCells at h
    split at h
    · cases h
    · cases h
    · rename_i v s1 hsc
      obtain ⟨old, hold, hv, hf1, hsalts1, hhash1, hm1⟩ := set_cell_ok hsc
      obtain ⟨ham1, hmem1, _, _, _, _⟩ := setCellMetrics_shape hm1
      obtain ⟨hs2, hh2, hl2, hmono2, hmem2, habs2, hidx2, hamr2, hmemr2⟩ :=
        insertCells_ok h
      have hilt : i < sbf.filter.length := lt_of_get? hold
      have holdD : sbf.filter.getD i 0 = old := getD_of_get? hold
      have hstep_getD : ∀ j, s1.filter.getD j 0 =
          if i = j ∧ i < sbf.filter.length then writeCell old area
          else sbf.filter.getD j 0 := by
        intro j
        rw [hf1, hv, getD_set_eq]
      have hstep_mono : ∀ j, sbf.filter.getD j 0 ≤ s1.filter.getD j 0 := by
        intro j
        rw [hstep_getD j]
        split
        · rename_i hc
          rw [← hc.1, holdD]
          exact writeCell_le old area
        · exact Nat.le_refl _
      have hstep_abs_pres : ∀ j, absorbed area sbf j → absorbed area s1 j := by
        intro j hj
        unfold absorbed at hj ⊢
        rw [hstep_getD j]
        split
        · exact writeCell_absorb old area
        · exact hj
      have hstep_abs_i : absorbed area s1 i := by
        unfold absorbed
        rw [hstep_getD i, if_pos ⟨rfl, hilt⟩]
        exact writeCell_absorb old area
      refine ⟨hs2.trans hsalts1, hh2.trans hhash1, ?_, ?_, ?_, ?_, ?_, ?_, ?_⟩
      · rw [hl2, hf1, List.length_set]
      · exact fun j => Nat.le_trans (hstep_mono j) (hmono2 j)
      · intro w hw
        rcases hmem2 w hw with hw1 | hw1
        · rw [hf1] at hw1
          rcases List.mem_or_eq_of_mem_set hw1 with hw2 | hw2
          · exact Or.inl hw2
          · rcases writeCell_eq_or old area with ho | ho
            · rw [hw2, hv, ho]
              exact Or.inl (mem_of_get? hold)
            · rw [hw2, hv, ho]
              exact Or.inr rfl
        · exact Or.inr hw1
      · exact fun j hj => habs2 j (hstep_abs_pres j hj)
      · intro j hj
        rcases List.mem_cons.mp hj with rfl | hj
        · exact habs2 j hstep_abs_i
        · exact hidx2 j hj
      · exact hamr2.trans ham1
      · exact hmemr2.trans hmem1

theorem insertCells_absorbed {area : Nat} : ∀ {idxs : List Nat} {sbf s : SBF},
    (∀ j ∈ idxs, absorbed area sbf j) →
    insertCells sbf idxs area = some (Except.ok s) → s.filter = sbf.filter
  | [], sbf, s, _, h => by
    unfold insertCells at h
    cases h
    rfl
  | i :: rest, sbf, s, habs, h => by
    unfold insertCells at h
    split at h
    · cases h
    · cases h
    · rename_i v s1 hsc
      obtain ⟨old, hold, hv, hf1, _, _, _⟩ := set_cell_ok hsc
      have holdD : sbf.filter.getD i 0 = old := getD_of_get? hold
      have habsi : writeCell old area = old := by
        have := habs i (List.mem_cons_self ..)
        unfold absorbed at this
        rw [holdD] at this
        exact this
      have hf1eq : s1.filter = sbf.filter := by
        rw [hf1, hv, habsi]
        exact set_self_of_get? hold
      have habs1 : ∀ j ∈ rest, absorbed area s1 j := by
        intro j hj
        unfold absorbed
        rw [hf1eq]
        exact habs j (List.mem_cons_of_mem _ hj)
      rw [insertCells_absorbed habs1 h, hf1eq]

theorem insertCells_no_error {area : Nat} : ∀ {idxs : List Nat} {sbf : SBF},
    (∀ i ∈ idxs, i < sbf.filter.length) →
    ∀ e, insertCells sbf idxs area ≠ some (Except.error e)
  | [], sbf, _, e, h => by
    unfold insertCells at h
    cases h
  | i :: rest, sbf, hidx, e, h => by
    unfold insertCells at h
    split at h
    · cases h
    · rename_i e2 hsc
      exact set_cell_no_error (hidx i (List.mem_cons_self ..)) e2 hsc
    · rename_i v s1 hsc
      obtain ⟨_, _, _, hf1, _, _, _⟩ := set_cell_ok hsc
      have hlen : s1.filter.length = sbf.filter.length := by
        rw [hf1, List.length_set]
      exact insertCells_no_error
        (fun j hj => hlen ▸ hidx j (List.mem_cons_of_mem _ hj)) e h

theorem insertCells_some {area : Nat} : ∀ {idxs : List Nat} {sbf : SBF},
    (∀ i ∈ idxs, i < sbf.filter.length) → 1 ≤ area →
    area < sbf.metrics.area_self_collisions.length →
    ∃ s, insertCells sbf idxs area = some (Except.ok s)
  | [], sbf, _, _, _ => ⟨sbf, rfl⟩
  | i :: rest, sbf, hidx, h1, ha => by
    obtain ⟨s1, hsc⟩ := set_cell_of_lt (hidx i (List.mem_cons_self ..)) h1 ha
    obtain ⟨old, hold, hv, hf1, _, _, hm1⟩ := set_cell_ok hsc
    have hlen : s1.filter.length = sbf.filter.length := by
      rw [hf1, List.length_set]
    have hscl : s1.metrics.area_self_collisions.length =
        sbf.metrics.area_self_collisions.length :=
      (setCellMetrics_shape hm1).2.2.2.2.2
    have hfor : ∀ j ∈ rest, j < s1.filter.length :=
      fun j hj => hlen ▸ hidx j (List.mem_cons_of_mem _ hj)
    obtain ⟨s, hs⟩ := insertCells_some hfor h1 (hscl ▸ ha)
    refine ⟨s, ?_⟩
    unfold insertCells
    rw [hsc]
    exact hs

theorem calc_indexes_lt {sbf : SBF} (c : List Nat) (hM : 0 < sbf.filter.length) :
    ∀ i ∈ calc_indexes sbf c, i < sbf.filter.length := by
  intro i hi
  simp only [calc_indexes, List.mem_map] at hi
  obtain ⟨salt, _, rfl⟩ := hi
  exact Nat.mod_lt _ hM

theorem calc_indexes_congr {s1 s2 : SBF} (hs : s1.salts = s2.salts)
    (hh : s1.hash_function = s2.hash_function)
    (hl : s1.filter.length = s2.filter.length) (c : List Nat) :
    calc_indexes s1 c = calc_indexes s2 c := by
  unfold calc_indexes
  rw [hs, hh, hl]

theorem get_cell_of_lt {sbf : SBF} {i : Nat} (hi : i < sbf.filter.length) :
    get_cell sbf i = Except.ok (sbf.filter.getD i 0) := by
  unfold get_cell
  rw [get?_of_lt hi]

theorem insert_shape {sbf : SBF} {c : List Nat} {area : Nat} {s : SBF}
    (h : insert sbf c area = some (Except.ok s)) :
    ∃ mid, insertCells sbf (calc_indexes sbf c) area = some (Except.ok mid) ∧
      s.filter = mid.filter ∧ s.salts = mid.salts ∧
      s.hash_function = mid.hash_function ∧
      s.metrics.members = mid.metrics.members + 1 ∧
      s.metrics.area_members =
        mid.metrics.area_members.set area (mid.metrics.area_members.getD area 0 + 1) := by
  unfold insert at h
  split at h
  · cases h
  · cases h
  · rename_i mid hmid
    simp only [Option.map_eq_some'] at h
    obtain ⟨am, ham, hok⟩ := h
    cases hok
    obtain ⟨hset, _⟩ := updCounter_some ham
    exact ⟨mid, hmid, rfl, rfl, rfl, rfl, by rw [hset]⟩

/-! The claim theorems. -/

/-- C1: for every filter with `M > 0` cells and a non-empty salt table,
`check(content)` returns (without panicking or erroring) the minimum of
the `K` cell values at the probe indices computed for that content; the
spec reads a result of `0` as "not present" and any non-zero result as
the inferred area. -/
theorem check_returns_min (sbf : SBF) (c : List Nat)
    (hM : 0 < sbf.filter.length) (hK : sbf.salts ≠ []) :
    ∃ v, check sbf c = some (Except.ok v) ∧
      v ∈ (calc_indexes sbf c).map (fun i => sbf.filter.getD i 0) ∧
      ∀ w ∈ (calc_indexes sbf c).map (fun i => sbf.filter.getD i 0), v ≤ w := by
  have hmap : (calc_indexes sbf c).map (fun i => get_cell sbf i) =
      ((calc_indexes sbf c).map (fun i => sbf.filter.getD i 0)).map Except.ok := by
    rw [List.map_map]
    exact List.map_congr_left (fun i hi => get_cell_of_lt (calc_indexes_lt c hM i hi))
  have hne : (calc_indexes sbf c).map (fun i => sbf.filter.getD i 0) ≠ [] := by
    simp only [ne_eq, List.map_eq_nil_iff, calc_indexes]
    exact hK
  obtain ⟨x, xs, hcons⟩ := List.exists_cons_of_ne_nil hne
  refine ⟨xs.foldl min x, ?_, ?_, ?_⟩
  · unfold check
    rw [hmap, hcons]
    simp only [List.map_cons]
    unfold reduceMin
    dsimp only
    rw [foldl_minComb_ok]
  · rw [hcons]
    rcases foldl_min_mem xs x with h | h
    · rw [h]
      exact List.mem_cons_self ..
    · exact List.mem_cons_of_mem _ h
  · rw [hcons]
    intro w hw
    obtain ⟨h1, h2⟩ := foldl_min_le xs x
    rcases List.mem_cons.mp hw with rfl | hw
    · exact h1
    · exact h2 w hw

/-- Witness: `check_returns_min` evaluated on the concrete filter
`sbf0`. -/
theorem check_returns_min_witness :
    (0 < sbf0.filter.length ∧ sbf0.salts ≠ []) ∧
    ∃ v, check sbf0 [] = some (Except.ok v) ∧
      v ∈ (calc_indexes sbf0 []).map (fun i => sbf0.filter.getD i 0) ∧
      ∀ w ∈ (calc_indexes sbf0 []).map (fun i => sbf0.filter.getD i 0), v ≤ w :=
  ⟨⟨by decide, by decide⟩, check_returns_min sbf0 [] (by decide) (by decide)⟩

/-- C2: over every sequence of insert operations whose areas lie in
`1..=A`, starting from a filter whose cells lie in `{0} ∪ {1..=A}`, no
cell value ever decreases (the write rule only overwrites a zero cell or
a strictly smaller value), and after every successful run every cell
again holds a value in `{0} ∪ {1..=A}`. -/
theorem insert_monotone_and_range (sbf : SBF) (ops : List (List Nat × Nat)) (A : Nat)
    (s : SBF) (hops : ∀ op ∈ ops, 1 ≤ op.2 ∧ op.2 ≤ A)
    (hinv : ∀ v ∈ sbf.filter, v = 0 ∨ (1 ≤ v ∧ v ≤ A))
    (h : insertSeq sbf ops = some (Except.ok s)) :
    (∀ j, sbf.filter.getD j 0 ≤ s.filter.getD j 0) ∧
    (∀ v ∈ s.filter, v = 0 ∨ (1 ≤ v ∧ v ≤ A)) := by
  induction ops generalizing sbf with
  | nil =>
    unfold insertSeq at h
    cases h
    exact ⟨fun j => Nat.le_refl _, hinv⟩
  | cons op ops ih =>
    unfold insertSeq at h
    split at h
    · rename_i s1 hins
      obtain ⟨mid, hic, hf, _, _, _, _⟩ := insert_shape hins
      obtain ⟨_, _, _, hmono, hmem, _, _, _, _⟩ := insertCells_ok hic
      have hstep_mono : ∀ j, sbf.filter.getD j 0 ≤ s1.filter.getD j 0 := by
        intro j
        rw [hf]
        exact hmono j
      have hinv1 : ∀ v ∈ s1.filter, v = 0 ∨ (1 ≤ v ∧ v ≤ A) := by
        intro v hv
        rw [hf] at hv
        rcases hmem v hv with hv1 | rfl
        · exact hinv v hv1
        · exact Or.inr (hops op (List.mem_cons_self ..))
      obtain ⟨hmono2, hinv2⟩ := ih s1 (fun o ho => hops o (List.mem_cons_of_mem _ ho)) hinv1 h
      exact ⟨fun j => Nat.le_trans (hstep_mono j) (hmono2 j), hinv2⟩
    · rename_i hno
      exact absurd h (hno s)

/-- Witness: `insert_monotone_and_range` on one insert into `sbf0`. -/
theorem insert_monotone_and_range_witness :
    ((∀ op ∈ [(([] : List Nat), 1)], 1 ≤ op.2 ∧ op.2 ≤ 1) ∧
     (∀ v ∈ sbf0.filter, v = 0 ∨ (1 ≤ v ∧ v ≤ 1)) ∧
     insertSeq sbf0 [([], 1)] = some (Except.ok s1c)) ∧
    ((∀ j, sbf0.filter.getD j 0 ≤ s1c.filter.getD j 0) ∧
     (∀ v ∈ s1c.filter, v = 0 ∨ (1 ≤ v ∧ v ≤ 1))) :=
  ⟨⟨by decide, by decide, rfl⟩,
    insert_monotone_and_range sbf0 [([], 1)] 1 s1c (by decide) (by decide) rfl⟩

/-- C3 (code bug): on the fresh filter `sbf0`, inserting `([], 1)`
writes area 1 into an empty cell, yet `area_cells` stays all zero
because the metrics branch of `set_cell` tests the cell value after the
write (hitting the self-collision branch instead).  The number of
non-zero cells is 1, so `Σ_a area_cells[a] == count(cells != 0)` fails
immediately after the first successful insert. -/
theorem set_cell_counter_inconsistency :
    insert sbf0 [] 1 = some (Except.ok s1c) ∧
    s1c.metrics.area_cells.sum = 0 ∧
    s1c.filter.countP (fun v => v != 0) = 1 ∧
    s1c.metrics.area_cells.sum ≠ s1c.filter.countP (fun v => v != 0) :=
  ⟨rfl, rfl, rfl, by decide⟩

/-- C4 counterexample: a filter built by `new` with `area_count = 1`
panics (models as `none`) on `insert(content, 1)` even though the area
lies in `1..=A`: the metrics vectors have length `A`, so indexing them
at `area = A` is out of bounds. -/
theorem insert_area_eq_area_number_aborts :
    new rng0 1 1 1 hf0 1 = some (Except.ok sbfA1) ∧ insert sbfA1 [] 1 = none :=
  ⟨rfl, rfl⟩

/-- C4 amended: for every filter with `M > 0` whose metrics vectors have
length `area_number`, and every area with `1 ≤ area ≤ area_number - 1`,
`insert` applies the write rule, updates the counters and returns `Ok`
(no error, no panic). -/
theorem insert_ok_below_area_number (sbf : SBF) (c : List Nat) (area : Nat)
    (hM : 0 < sbf.filter.length) (h1 : 1 ≤ area)
    (h2 : area + 1 ≤ sbf.metrics.area_number)
    (hml : sbf.metrics.area_members.length = sbf.metrics.area_number)
    (hsl : sbf.metrics.area_self_collisions.length = sbf.metrics.area_number) :
    ∃ s, insert sbf c area = some (Except.ok s) ∧
      s.metrics.members = sbf.metrics.members + 1 ∧
      s.metrics.area_members.getD area 0 =
        sbf.metrics.area_members.getD area 0 + 1 := by
  obtain ⟨mid, hmid⟩ := insertCells_some (calc_indexes_lt c hM) h1 (by omega)
  obtain ⟨_, _, _, _, _, _, _, ham, hmem⟩ := insertCells_ok hmid
  have hmla : area < mid.metrics.area_members.length := by
    rw [ham, hml]
    omega
  refine ⟨{ mid with metrics := { mid.metrics with
      members := mid.metrics.members + 1,
      area_members := mid.metrics.area_members.set area
        (mid.metrics.area_members.getD area 0 + 1) } }, ?_, ?_, ?_⟩
  · unfold insert
    rw [hmid]
    dsimp only
    rw [updCounter_of_lt _ hmla]
    rfl
  · dsimp only
    rw [hmem]
  · dsimp only
    rw [getD_set_eq, if_pos ⟨rfl, hmla⟩, ham]

/-- Witness: `insert_ok_below_area_number` on the two-area filter
`sbf0` with `area = 1`. -/
theorem insert_ok_below_area_number_witness :
    (0 < sbf0.filter.length ∧ 1 + 1 ≤ sbf0.metrics.area_number) ∧
    ∃ s, insert sbf0 [] 1 = some (Except.ok s) ∧
      s.metrics.members = sbf0.metrics.members + 1 ∧
      s.metrics.area_members.getD 1 0 = sbf0.metrics.area_members.getD 1 0 + 1 :=
  ⟨⟨by decide, by decide⟩,
    insert_ok_below_area_number sbf0 [] 1 (by decide) (by decide) (by decide)
      (by decide) (by decide)⟩

/-- C5: two contents that agree on their first `L` bytes after
right-padding with zeros (with `L` the common salt length, i.e.
`max_input_size`) produce identical index vectors. -/
theorem calc_indexes_truncation (sbf : SBF) (c1 c2 : List Nat) (L : Nat)
    (hL : ∀ s ∈ sbf.salts, s.length = L)
    (h : (c1 ++ List.replicate L 0).take L = (c2 ++ List.replicate L 0).take L) :
    calc_indexes sbf c1 = calc_indexes sbf c2 := by
  unfold calc_indexes
  apply List.map_congr_left
  intro salt hs
  have hlen : salt.length = L := hL salt hs
  have hz : List.zipWith (fun h v => h ^^^ v) (c1 ++ List.replicate salt.length 0) salt =
      List.zipWith (fun h v => h ^^^ v) (c2 ++ List.replicate salt.length 0) salt := by
    rw [zipWith_take_left (fun h v => h ^^^ v) (c1 ++ List.replicate salt.length 0) salt,
      zipWith_take_left (fun h v => h ^^^ v) (c2 ++ List.replicate salt.length 0) salt,
      hlen, h]
  dsimp only
  rw [hz]

/-- Witness: scenario S6 with `L = 5`: the contents "abcdefgh" and
"abcde" (as byte lists) give identical index vectors. -/
theorem calc_indexes_truncation_witness :
    ((∀ s ∈ sbf5.salts, s.length = 5) ∧
     (([97, 98, 99, 100, 101, 102, 103, 104] : List Nat) ++ List.replicate 5 0).take 5 =
       (([97, 98, 99, 100, 101] : List Nat) ++ List.replicate 5 0).take 5) ∧
    calc_indexes sbf5 [97, 98, 99, 100, 101, 102, 103, 104] =
      calc_indexes sbf5 [97, 98, 99, 100, 101] :=
  ⟨⟨by decide, by decide⟩,
    calc_indexes_truncation sbf5 [97, 98, 99, 100, 101, 102, 103, 104]
      [97, 98, 99, 100, 101] 5 (by decide) (by decide)⟩

/-- C6: with `M > 0`, every computed index is reduced modulo `M` and so
lies in `0..M`; consequently the `IndexOutOfBounds` branch is
unreachable and neither `check` nor `insert` ever returns an error
value (panics on the metrics vectors are a separate, non-`Result`
outcome). -/
theorem calc_indexes_in_range_no_error (sbf : SBF) (c : List Nat)
    (hM : 0 < sbf.filter.length) :
    (∀ i ∈ calc_indexes sbf c, i < sbf.filter.length) ∧
    (∀ e, check sbf c ≠ some (Except.error e)) ∧
    (∀ area e, insert sbf c area ≠ some (Except.error e)) := by
  refine ⟨calc_indexes_lt c hM, ?_, ?_⟩
  · intro e h
    unfold check at h
    have hmap : (calc_indexes sbf c).map (fun i => get_cell sbf i) =
        ((calc_indexes sbf c).map (fun i => sbf.filter.getD i 0)).map Except.ok := by
      rw [List.map_map]
      exact List.map_congr_left (fun i hi => get_cell_of_lt (calc_indexes_lt c hM i hi))
    rw [hmap] at h
    cases hc : (calc_indexes sbf c).map (fun i => sbf.filter.getD i 0) with
    | nil =>
      rw [hc] at h
      cases h
    | cons x xs =>
      rw [hc] at h
      simp only [List.map_cons] at h
      unfold reduceMin at h
      dsimp only at h
      rw [foldl_minComb_ok] at h
      cases h
  · intro area e h
    unfold insert at h
    split at h
    · cases h
    · rename_i e2 hic
      cases h
      exact insertCells_no_error (calc_indexes_lt c hM) e2 hic
    · simp only [Option.map_eq_some'] at h
      obtain ⟨am, _, hok⟩ := h
      cases hok

/-- Witness: `calc_indexes_in_range_no_error` on `sbf0`. -/
theorem calc_indexes_in_range_no_error_witness :
    0 < sbf0.filter.length ∧
    ((∀ i ∈ calc_indexes sbf0 [], i < sbf0.filter.length) ∧
     (∀ e, check sbf0 [] ≠ some (Except.error e)) ∧
     (∀ area e, insert sbf0 [] area ≠ some (Except.error e))) :=
  ⟨by decide, calc_indexes_in_range_no_error sbf0 [] (by decide)⟩

/-- C7: inserting the same `(content, area)` twice produces the same
cell array as inserting it once; the second insert leaves every cell
unchanged (counters may still advance). -/
theorem insert_idempotent_filter (sbf : SBF) (c : List Nat) (area : Nat) (s1 s2 : SBF)
    (h1 : insert sbf c area = some (Except.ok s1))
    (h2 : insert s1 c area = some (Except.ok s2)) :
    s2.filter = s1.filter := by
  obtain ⟨mid1, hic1, hf1, hs1, hh1, _, _⟩ := insert_shape h1
  obtain ⟨mid2, hic2, hf2, _, _, _, _⟩ := insert_shape h2
  obtain ⟨hsalts, hhash, hlen, _, _, _, habs, _, _⟩ := insertCells_ok hic1
  have hidx : calc_indexes s1 c = calc_indexes sbf c := by
    apply calc_indexes_congr
    · rw [hs1, hsalts]
    · rw [hh1, hhash]
    · rw [hf1, hlen]
  have habs1 : ∀ j ∈ calc_indexes s1 c, absorbed area s1 j := by
    intro j hj
    rw [hidx] at hj
    have hj2 := habs j hj
    unfold absorbed at hj2 ⊢
    rw [hf1]
    exact hj2
  rw [hf2, insertCells_absorbed habs1 hic2]

/-- Witness: `insert_idempotent_filter` on `sbf0` with content `[]`
and area 1. -/
theorem insert_idempotent_filter_witness :
    (insert sbf0 [] 1 = some (Except.ok s1c) ∧
     insert s1c [] 1 = some (Except.ok s2c)) ∧
    s2c.filter = s1c.filter :=
  ⟨⟨rfl, rfl⟩, insert_idempotent_filter sbf0 [] 1 s1c s2c rfl rfl⟩

/-- C10: `new` asserts `cells > 0` (a panic, not an error) and, with the
conversions to usize always succeeding in this embedding, never returns
an error value; `Error` has the single variant `IndexOutOfBounds`, the
only error `new` could produce when a size conversion fails. -/
theorem new_zero_cells_asserts (rng : Nat → Nat → Nat)
    (cells hash_number max_input_size : Nat) (hf : List Nat → List Nat)
    (area_number : Nat) :
    (new rng cells hash_number max_input_size hf area_number = none ↔ cells = 0) ∧
    (∀ e, new rng cells hash_number max_input_size hf area_number ≠
      some (Except.error e)) ∧
    (∀ e : Error, e = Error.IndexOutOfBounds) := by
  refine ⟨?_, ?_, ?_⟩
  · unfold new
    by_cases h : cells = 0 <;> simp [h]
  · intro e
    unfold new
    by_cases h : cells = 0 <;> simp [h]
  · intro e
    cases e
    rfl

theorem log_two_pos : (0:ℝ) < Real.log 2 := Real.log_pos (by norm_num)

theorem ten_div_log_two_bounds :
    14 < (10 : ℝ) / Real.log 2 ∧ (10 : ℝ) / Real.log 2 < 15 := by
  constructor
  · rw [lt_div_iff₀ log_two_pos]
    linarith [Real.log_two_lt_d9]
  · rw [div_lt_iff₀ log_two_pos]
    linarith [Real.log_two_gt_d9]

theorem neg_ten_log_half :
    -((10:Nat) : ℝ) * Real.log (1/2) / (Real.log 2) ^ 2 = 10 / Real.log 2 := by
  rw [one_div, Real.log_inv]
  have h : Real.log 2 ≠ 0 := ne_of_gt log_two_pos
  push_cast
  field_simp
  ring

/-- C8 counterexample: at `n = 10`, `p = 1/2` the exact sizing value is
`10 / ln 2 ≈ 14.43`; the source truncates it (`as u64`) to 14 cells,
while the spec's ceiling formula demands 15, so `new_optimal` does not
choose `M = ⌈-n ln p / (ln 2)²⌉`.  (The 0.43 gap is far larger than any
f64 rounding of the same expression.) -/
theorem new_optimal_floor_not_ceil :
    optimal_cells 10 (1/2) = 14 ∧ optimal_cells_spec 10 (1/2) = 15 := by
  obtain ⟨hlo, hhi⟩ := ten_div_log_two_bounds
  constructor
  · unfold optimal_cells
    rw [neg_ten_log_half]
    have h14 : ⌊(10:ℝ) / Real.log 2⌋ = 14 := by
      rw [Int.floor_eq_iff]
      constructor
      · push_cast
        linarith
      · push_cast
        linarith
    rw [h14]
    rfl
  · unfold optimal_cells_spec
    rw [neg_ten_log_half]
    have h15 : ⌈(10:ℝ) / Real.log 2⌉ = 15 := by
      rw [Int.ceil_eq_iff]
      constructor
      · push_cast
        linarith
      · push_cast
        linarith
    rw [h15]
    rfl

/-- C8 amended: for `n > 0` and `0 < p < 1`, `new_optimal` chooses the
cell count `M = trunc(-n·ln(p)/(ln 2)²)` (truncation toward zero, not
the ceiling) and the probe count `K = ⌈(M/n)·ln 2⌉` computed from that
truncated `M`, and delegates to `new` with those values. -/
theorem new_optimal_sizing (rng : Nat → Nat → Nat) (hf : List Nat → List Nat)
    (n : Nat) (p : ℝ) (L A : Nat) (_hn : 0 < n) (hp0 : 0 < p) (hp1 : p < 1) :
    new_optimal rng n p L hf A =
      new rng (optimal_cells n p) (optimal_hash_number n p) L hf A ∧
    (optimal_cells n p : ℤ) = ⌊-(n : ℝ) * Real.log p / (Real.log 2) ^ 2⌋ ∧
    (optimal_hash_number n p : ℤ) =
      ⌈(optimal_cells n p : ℝ) / (n : ℝ) * Real.log 2⌉ := by
  have hlogp : Real.log p < 0 := Real.log_neg hp0 hp1
  have hnum : 0 ≤ -(n : ℝ) * Real.log p / (Real.log 2) ^ 2 := by
    apply div_nonneg
    · have h0 : 0 ≤ (n:ℝ) := Nat.cast_nonneg n
      nlinarith
    · positivity
  refine ⟨rfl, ?_, ?_⟩
  · unfold optimal_cells
    exact Int.toNat_of_nonneg (Int.floor_nonneg.mpr hnum)
  · unfold optimal_hash_number
    apply Int.toNat_of_nonneg
    apply Int.ceil_nonneg
    apply mul_nonneg
    · exact div_nonneg (Nat.cast_nonneg _) (Nat.cast_nonneg _)
    · exact le_of_lt log_two_pos

/-- Witness: `new_optimal_sizing` at `n = 10`, `p = 1/2`. -/
theorem new_optimal_sizing_witness :
    (0 < 10 ∧ (0:ℝ) < 1/2 ∧ (1/2:ℝ) < 1) ∧
    (new_optimal rng0 10 (1/2) 1 hf0 1 =
      new rng0 (optimal_cells 10 (1/2)) (optimal_hash_number 10 (1/2)) 1 hf0 1 ∧
    (optimal_cells 10 (1/2) : ℤ) =
      ⌊-((10:Nat) : ℝ) * Real.log (1/2) / (Real.log 2) ^ 2⌋ ∧
    (optimal_hash_number 10 (1/2) : ℤ) =
      ⌈(optimal_cells 10 (1/2) : ℝ) / ((10:Nat) : ℝ) * Real.log 2⌉) :=
  ⟨⟨by decide, one_half_pos, one_half_lt_one⟩,
    new_optimal_sizing rng0 hf0 10 (1/2) 1 1 (by decide) one_half_pos one_half_lt_one⟩

/-- C9 (code bug): on the metrics record `m0` (ten cells, two probes,
two areas, one member in area 1, derived vectors at the sentinel `-1`),
`set_prior_area_fpp` stores the raw prior probability
`(1 - (1 - 1/10)^(2·1))^2 = 361/10000` into `area_fpp[1]` instead of
`area_prior_fpp[1]`; `area_prior_fpp[1]` is only clamped from its
sentinel `-1` to `0`, not set to the non-zero raw value the claim (and
the function's own doc comment) prescribes. -/
theorem set_prior_area_fpp_writes_wrong_vector :
    (set_prior_area_fpp m0).area_prior_fpp = [-1, 0] ∧
    (set_prior_area_fpp m0).area_fpp = [-1, (361 : ℝ) / 10000] ∧
    (361 : ℝ) / 10000 ≠ 0 := by
  refine ⟨?_, ?_, by norm_num⟩
  · simp only [set_prior_area_fpp, m0]
    norm_num [List.range', max_def]
  · simp only [set_prior_area_fpp, m0]
    norm_num [List.range', max_def]

end SbfRs
